import Mathlib

/-!
Verification of the dusk-network/forge contract interface compiler and
runtime bridge against its natural-language specification.

The definitions below are a shallow embedding of the Rust sources:
  * `src/contract-macro/src/resolve.rs`  (type resolver)
  * `src/contract-macro/src/extract.rs`  (declaration extractor)
  * `src/contract-macro/src/validate.rs` (signature validator)
  * `src/contract-macro/src/generate.rs` (schema generator)
  * `src/contract-macro/src/data_driver.rs` (codec-table generator)
  * `src/cli/src/data_driver_wasm.rs`    (runtime bridge)
-/

namespace Forge

/-- A syn type expression, as handled by `resolve_syn_type` in `resolve.rs`:
a path of segments (each segment an identifier with optional angle-bracketed
generic type arguments), a tuple, a reference with mutability flag, or an
opaque fallback rendered verbatim (the `_ => quote!(#ty)` arm). -/
inductive Ty where
  | path : List (String × List Ty) → Ty
  | tuple : List Ty → Ty
  | ref : Bool → Ty → Ty
  | other : String → Ty

/-- The import map built by `build_import_map`: short name / alias to the
fully qualified path. A path is represented by its `::`-separated segments
(imports are accumulated by joining segments with `::` in `extract_imports_from_tree`). -/
def ImportMap : Type := List (String × List String)

/-- Model of `Vec::join(sep)` on strings. -/
def joinSep (sep : String) : List String → String
  | [] => ""
  | [s] => s
  | s :: rest => s ++ sep ++ joinSep sep rest

mutual

/-- Model of `resolve_syn_type` from `resolve.rs`: render a type to its fully
qualified textual form, resolving via the import map. -/
def resolveSynType (m : ImportMap) : Ty → String
  | .path segs => resolveTypePath m segs
  | .tuple ts => "(" ++ joinSep ", " (resolveSynList m ts) ++ ")"
  | .ref mu t => (if mu then "&mut " else "&") ++ resolveSynType m t
  | .other s => s

/-- Resolve each element of a list of types (the tuple and generic-argument
recursions of `resolve_syn_type` / `format_generic_args`). -/
def resolveSynList (m : ImportMap) : List Ty → List String
  | [] => []
  | t :: ts => resolveSynType m t :: resolveSynList m ts

/-- Model of `resolve_type_path` from `resolve.rs`: the first segment is looked up in
the import map; on a hit the fully qualified base replaces it (dropping the
first segment's own generic arguments when further segments follow, exactly
as the source does); on a miss every segment is formatted as-is with its
generic arguments still resolved. -/
def resolveTypePath (m : ImportMap) : List (String × List Ty) → String
  | [] => ""
  | (n, args) :: rest =>
    match List.lookup n m with
    | some base =>
      match rest with
      | [] => joinSep "::" base ++ formatGenericArgs m args
      | _ :: _ => joinSep "::" base ++ "::" ++ joinSep "::" (formatSegList m rest)
    | none => joinSep "::" ((n ++ formatGenericArgs m args) :: formatSegList m rest)

/-- Model of `format_segment` mapped over a segment list. -/
def formatSegList (m : ImportMap) : List (String × List Ty) → List String
  | [] => []
  | (n, args) :: ss => (n ++ formatGenericArgs m args) :: formatSegList m ss

/-- Model of `format_generic_args` from `resolve.rs` (angle-bracketed arguments; an
empty argument list stands for `PathArguments::None` and renders as nothing). -/
def formatGenericArgs (m : ImportMap) : List Ty → String
  | [] => ""
  | a :: rest => "<" ++ joinSep ", " (resolveSynType m a :: resolveSynList m rest) ++ ">"

end

/-- Textual rendering of a type with no resolution: `resolveSynType` against
the empty import map (every lookup misses, so the type is only formatted).
This models `TokenStream::to_string` as used for type-map keys and schema
entries, up to whitespace. -/
def tyToString (t : Ty) : String := resolveSynType [] t

/-- Rebuild the segment list of a resolved base path: all segments bare, with
the original first segment's generic arguments re-attached to the last
segment (string concatenation `base ++ generics` puts them there). -/
def mkBaseSegs : List String → List Ty → List (String × List Ty)
  | [], _ => []
  | [n], args => [(n, args)]
  | n :: n2 :: rest, args => (n, []) :: mkBaseSegs (n2 :: rest) args

mutual

/-- Structural counterpart of `resolve_syn_type`: the resolved type as a
type expression rather than a string (the string form is recovered by
`tyToString`, see `resolveSynType_eq_render`). -/
def resolveTy (m : ImportMap) : Ty → Ty
  | .path [] => .path []
  | .path ((n, args) :: rest) =>
    match List.lookup n m with
    | some base =>
      match rest with
      | [] => .path (mkBaseSegs base (resolveTyList m args))
      | _ :: _ => .path ((base.map fun b => (b, [])) ++ resolveSegList m rest)
    | none => .path ((n, resolveTyList m args) :: resolveSegList m rest)
  | .tuple ts => .tuple (resolveTyList m ts)
  | .ref mu t => .ref mu (resolveTy m t)
  | .other s => .other s

/-- Resolve each element of a list of types. -/
def resolveTyList (m : ImportMap) : List Ty → List Ty
  | [] => []
  | t :: ts => resolveTy m t :: resolveTyList m ts

/-- Resolve the generic arguments of each segment in a list. -/
def resolveSegList (m : ImportMap) : List (String × List Ty) → List (String × List Ty)
  | [] => []
  | (n, args) :: ss => (n, resolveTyList m args) :: resolveSegList m ss

end

mutual

/-- True when no lookup performed while resolving `t` can hit the import
map: the head segment of every path occurring in `t` (including inside
tuples, references and generic arguments) is not a key of the map. Such a
type is "already fully qualified" in the sense of the specification. -/
def usesNoImport (m : ImportMap) : Ty → Bool
  | .path [] => true
  | .path ((n, args) :: rest) =>
    (List.lookup n m).isNone && usesNoImportList m args && usesNoImportSegs m rest
  | .tuple ts => usesNoImportList m ts
  | .ref _ t => usesNoImport m t
  | .other _ => true

/-- Model of `usesNoImport` over a list of types. -/
def usesNoImportList (m : ImportMap) : List Ty → Bool
  | [] => true
  | t :: ts => usesNoImport m t && usesNoImportList m ts

/-- Model of `usesNoImport` over the generic arguments of a segment list. -/
def usesNoImportSegs (m : ImportMap) : List (String × List Ty) → Bool
  | [] => true
  | (_, args) :: ss => usesNoImportList m args && usesNoImportSegs m ss

end

/-- A well-formed import map: every import path is nonempty and its first
segment is not itself an import short name (true of real import tables,
whose paths start at an external crate root). -/
def goodMap (m : ImportMap) : Bool :=
  m.all fun kv =>
    match kv.2 with
    | [] => false
    | s :: _ => (List.lookup s m).isNone

theorem lookup_mem {α β : Type} [BEq α] [LawfulBEq α] {m : List (α × β)} {k : α} {v : β}
    (h : List.lookup k m = some v) : (k, v) ∈ m := by
  induction m with
  | nil => simp at h
  | cons kv m ih =>
    obtain ⟨a, b⟩ := kv
    by_cases hk : k = a
    · subst hk
      simp [List.lookup_cons] at h
      simp [h]
    · simp [List.lookup_cons, beq_false_of_ne hk] at h
      exact List.mem_cons_of_mem _ (ih h)

theorem goodMap_head {m : ImportMap} (hm : goodMap m = true) {k : String}
    {v : List String} (h : List.lookup k m = some v) :
    ∃ s srest, v = s :: srest ∧ List.lookup s m = none := by
  have hmem := lookup_mem h
  have := List.all_eq_true.mp hm _ hmem
  cases v with
  | nil => simp at this
  | cons s srest => exact ⟨s, srest, rfl, Option.isNone_iff_eq_none.mp this⟩

mutual

theorem resolveTy_of_usesNoImport (m : ImportMap) :
    ∀ t : Ty, usesNoImport m t = true → resolveTy m t = t
  | .path [], _ => rfl
  | .path ((n, args) :: rest), h => by
    rw [usesNoImport, Bool.and_eq_true, Bool.and_eq_true] at h
    obtain ⟨⟨hn, hargs⟩, hrest⟩ := h
    rw [resolveTy, Option.isNone_iff_eq_none.mp hn,
      resolveTyList_of_usesNoImport m args hargs,
      resolveSegList_of_usesNoImport m rest hrest]
  | .tuple ts, h => by
    rw [usesNoImport] at h
    rw [resolveTy, resolveTyList_of_usesNoImport m ts h]
  | .ref mu t, h => by
    rw [usesNoImport] at h
    rw [resolveTy, resolveTy_of_usesNoImport m t h]
  | .other s, _ => rfl

theorem resolveTyList_of_usesNoImport (m : ImportMap) :
    ∀ ts : List Ty, usesNoImportList m ts = true → resolveTyList m ts = ts
  | [], _ => rfl
  | t :: ts, h => by
    rw [usesNoImportList, Bool.and_eq_true] at h
    rw [resolveTyList, resolveTy_of_usesNoImport m t h.1,
      resolveTyList_of_usesNoImport m ts h.2]

theorem resolveSegList_of_usesNoImport (m : ImportMap) :
    ∀ ss : List (String × List Ty), usesNoImportSegs m ss = true → resolveSegList m ss = ss
  | [], _ => rfl
  | (n, args) :: ss, h => by
    rw [usesNoImportSegs, Bool.and_eq_true] at h
    rw [resolveSegList, resolveTyList_of_usesNoImport m args h.1,
      resolveSegList_of_usesNoImport m ss h.2]

end

mutual

theorem resolveSynType_of_usesNoImport (m : ImportMap) :
    ∀ t : Ty, usesNoImport m t = true → resolveSynType m t = tyToString t
  | .path [], _ => rfl
  | .path ((n, args) :: rest), h => by
    rw [usesNoImport, Bool.and_eq_true, Bool.and_eq_true] at h
    obtain ⟨⟨hn, hargs⟩, hrest⟩ := h
    rw [resolveSynType, tyToString, resolveSynType, resolveTypePath, resolveTypePath,
      Option.isNone_iff_eq_none.mp hn,
      formatGenericArgs_of_usesNoImport m args hargs,
      formatSegList_of_usesNoImport m rest hrest]
    rfl
  | .tuple ts, h => by
    rw [usesNoImport] at h
    rw [resolveSynType, tyToString, resolveSynType, resolveSynList_of_usesNoImport m ts h]
  | .ref mu t, h => by
    rw [usesNoImport] at h
    rw [resolveSynType, tyToString, resolveSynType, resolveSynType_of_usesNoImport m t h]
    rfl
  | .other s, _ => rfl

theorem resolveSynList_of_usesNoImport (m : ImportMap) :
    ∀ ts : List Ty, usesNoImportList m ts = true → resolveSynList m ts = resolveSynList [] ts
  | [], _ => rfl
  | t :: ts, h => by
    rw [usesNoImportList, Bool.and_eq_true] at h
    rw [resolveSynList, resolveSynType_of_usesNoImport m t h.1,
      resolveSynList_of_usesNoImport m ts h.2]
    rfl

theorem formatSegList_of_usesNoImport (m : ImportMap) :
    ∀ ss : List (String × List Ty),
      usesNoImportSegs m ss = true → formatSegList m ss = formatSegList [] ss
  | [], _ => rfl
  | (n, args) :: ss, h => by
    rw [usesNoImportSegs, Bool.and_eq_true] at h
    rw [formatSegList, formatGenericArgs_of_usesNoImport m args h.1,
      formatSegList_of_usesNoImport m ss h.2]
    rfl

theorem formatGenericArgs_of_usesNoImport (m : ImportMap) :
    ∀ args : List Ty,
      usesNoImportList m args = true → formatGenericArgs m args = formatGenericArgs [] args
  | [], _ => rfl
  | a :: rest, h => by
    rw [usesNoImportList, Bool.and_eq_true] at h
    rw [formatGenericArgs, resolveSynType_of_usesNoImport m a h.1,
      resolveSynList_of_usesNoImport m rest h.2]
    rfl

end

theorem resolveSegList_append (m : ImportMap) :
    ∀ xs ys, resolveSegList m (xs ++ ys) = resolveSegList m xs ++ resolveSegList m ys
  | [], _ => rfl
  | (n, args) :: xs, ys => by
    rw [List.cons_append, resolveSegList, resolveSegList, resolveSegList_append m xs ys,
      List.cons_append]

theorem resolveSegList_map_bare (m : ImportMap) :
    ∀ v : List String,
      resolveSegList m (v.map fun b => (b, ([] : List Ty))) = v.map fun b => (b, [])
  | [] => rfl
  | b :: v => by
    rw [List.map_cons, resolveSegList, resolveSegList_map_bare m v, resolveTyList]

theorem resolveSegList_mkBaseSegs (m : ImportMap) :
    ∀ (v : List String) (args : List Ty),
      resolveSegList m (mkBaseSegs v args) = mkBaseSegs v (resolveTyList m args)
  | [], _ => rfl
  | [_], _ => by simp [mkBaseSegs, resolveSegList]
  | n :: n2 :: v, args => by
    simp only [mkBaseSegs, resolveSegList, resolveTyList]
    rw [resolveSegList_mkBaseSegs m (n2 :: v) args]

mutual

theorem resolveTy_idem (m : ImportMap) (hm : goodMap m = true) :
    ∀ t : Ty, resolveTy m (resolveTy m t) = resolveTy m t
  | .path [] => rfl
  | .path ((n, args) :: rest) => by
    cases hl : List.lookup n m with
    | none =>
      simp only [resolveTy, hl]
      rw [resolveTyList_idem m hm args, resolveSegList_idem m hm rest]
    | some base =>
      obtain ⟨s, srest, rfl, hs⟩ := goodMap_head hm hl
      cases rest with
      | nil =>
        simp only [resolveTy, hl]
        cases srest with
        | nil =>
          simp only [mkBaseSegs, resolveTy, hs, resolveSegList]
          rw [resolveTyList_idem m hm args]
        | cons s2 srest2 =>
          simp only [mkBaseSegs, resolveTy, hs, resolveTyList]
          rw [resolveSegList_mkBaseSegs m (s2 :: srest2) (resolveTyList m args),
            resolveTyList_idem m hm args]
      | cons r rs =>
        simp only [resolveTy, hl, List.map_cons, List.cons_append]
        simp only [resolveTy, hs, resolveTyList]
        rw [resolveSegList_append m, resolveSegList_map_bare m srest,
          resolveSegList_idem m hm (r :: rs)]
  | .tuple ts => by
    rw [resolveTy, resolveTy, resolveTyList_idem m hm ts]
  | .ref mu t => by
    rw [resolveTy, resolveTy, resolveTy_idem m hm t]
  | .other s => rfl

theorem resolveTyList_idem (m : ImportMap) (hm : goodMap m = true) :
    ∀ ts : List Ty, resolveTyList m (resolveTyList m ts) = resolveTyList m ts
  | [] => rfl
  | t :: ts => by
    rw [resolveTyList, resolveTyList, resolveTy_idem m hm t, resolveTyList_idem m hm ts]

theorem resolveSegList_idem (m : ImportMap) (hm : goodMap m = true) :
    ∀ ss : List (String × List Ty),
      resolveSegList m (resolveSegList m ss) = resolveSegList m ss
  | [] => rfl
  | (n, args) :: ss => by
    rw [resolveSegList, resolveSegList, resolveTyList_idem m hm args,
      resolveSegList_idem m hm ss]

end

theorem joinSep_cons_ne (sep x : String) {ys : List String} (h : ys ≠ []) :
    joinSep sep (x :: ys) = x ++ sep ++ joinSep sep ys := by
  cases ys with
  | nil => exact absurd rfl h
  | cons y ys => rfl

theorem joinSep_append (sep : String) :
    ∀ xs ys, xs ≠ [] → ys ≠ [] →
      joinSep sep (xs ++ ys) = joinSep sep xs ++ sep ++ joinSep sep ys
  | [x], ys, _, hys => by
    rw [List.singleton_append, joinSep_cons_ne sep x hys, joinSep]
  | x :: x2 :: xs, ys, _, hys => by
    rw [List.cons_append, joinSep_cons_ne sep x (by simp),
      joinSep_append sep (x2 :: xs) ys (by simp) hys,
      joinSep_cons_ne sep x (by simp : x2 :: xs ≠ []),
      String.append_assoc (x ++ sep), String.append_assoc (x ++ sep)]

theorem formatSegList_append (m : ImportMap) :
    ∀ xs ys, formatSegList m (xs ++ ys) = formatSegList m xs ++ formatSegList m ys
  | [], _ => rfl
  | (n, args) :: xs, ys => by
    rw [List.cons_append, formatSegList, formatSegList, formatSegList_append m xs ys,
      List.cons_append]

theorem formatSegList_map_bare :
    ∀ v : List String, formatSegList [] (v.map fun b => (b, ([] : List Ty))) = v
  | [] => rfl
  | b :: v => by
    rw [List.map_cons, formatSegList, formatSegList_map_bare v, formatGenericArgs,
      String.append_empty]

theorem mkBaseSegs_ne_nil (args : List Ty) :
    ∀ v : List String, v ≠ [] → mkBaseSegs v args ≠ []
  | [], h => absurd rfl h
  | [_], _ => by simp [mkBaseSegs]
  | _ :: _ :: _, _ => by simp [mkBaseSegs]

theorem formatSegList_ne_nil (m : ImportMap) :
    ∀ ss : List (String × List Ty), ss ≠ [] → formatSegList m ss ≠ []
  | [], h => absurd rfl h
  | (_, _) :: _, _ => by simp [formatSegList]

theorem resolveTypePath_empty_map :
    ∀ segs, resolveTypePath [] segs = joinSep "::" (formatSegList [] segs)
  | [] => rfl
  | (_, _) :: _ => by
    rw [resolveTypePath, formatSegList]
    rfl

theorem renderPath_mkBaseSegs :
    ∀ (v : List String) (args : List Ty), v ≠ [] →
      resolveTypePath [] (mkBaseSegs v args) = joinSep "::" v ++ formatGenericArgs [] args
  | [], _, h => absurd rfl h
  | [n], args, _ => by
    rw [mkBaseSegs, resolveTypePath]
    rfl
  | n :: n2 :: v, args, _ => by
    rw [mkBaseSegs, resolveTypePath_empty_map, formatSegList, formatGenericArgs,
      String.append_empty,
      joinSep_cons_ne "::" n
        (formatSegList_ne_nil [] _ (mkBaseSegs_ne_nil args (n2 :: v) (by simp))),
      ← resolveTypePath_empty_map, renderPath_mkBaseSegs (n2 :: v) args (by simp),
      joinSep_cons_ne "::" n (by simp : n2 :: v ≠ []),
      String.append_assoc (n ++ "::")]

mutual

/-- The string produced by `resolve_syn_type` is the rendering of the
structurally resolved type: `resolveTy` faithfully mirrors the source's
string-level resolution (for well-formed import maps). -/
theorem resolveSynType_resolveTy (m : ImportMap) (hm : goodMap m = true) :
    ∀ t : Ty, resolveSynType m t = resolveSynType [] (resolveTy m t)
  | .path [] => rfl
  | .path ((n, args) :: rest) => by
    cases hl : List.lookup n m with
    | none =>
      simp only [resolveSynType, resolveTypePath, resolveTy, hl, List.lookup_nil]
      rw [formatGenericArgs_resolveTyList m hm args, formatSegList_resolveSegList m hm rest]
    | some base =>
      obtain ⟨s, srest, rfl, _⟩ := goodMap_head hm hl
      cases rest with
      | nil =>
        simp only [resolveSynType, resolveTypePath, resolveTy, hl]
        rw [renderPath_mkBaseSegs (s :: srest) _ (by simp),
          formatGenericArgs_resolveTyList m hm args]
      | cons r rs =>
        simp only [resolveSynType, resolveTypePath, resolveTy, hl, List.map_cons,
          List.cons_append, List.lookup_nil, formatGenericArgs, String.append_empty]
        rw [formatSegList_append, formatSegList_map_bare,
          ← formatSegList_resolveSegList m hm (r :: rs),
          ← joinSep_append "::" (s :: srest) (formatSegList m (r :: rs)) (by simp)
            (formatSegList_ne_nil m (r :: rs) (by simp))]
        simp
  | .tuple ts => by
    rw [resolveSynType, resolveTy, resolveSynType, resolveSynList_resolveTyList m hm ts]
  | .ref mu t => by
    rw [resolveSynType, resolveTy, resolveSynType, resolveSynType_resolveTy m hm t]
  | .other s => rfl

theorem resolveSynList_resolveTyList (m : ImportMap) (hm : goodMap m = true) :
    ∀ ts : List Ty, resolveSynList m ts = resolveSynList [] (resolveTyList m ts)
  | [] => rfl
  | t :: ts => by
    rw [resolveSynList, resolveTyList, resolveSynList, resolveSynType_resolveTy m hm t,
      resolveSynList_resolveTyList m hm ts]

theorem formatSegList_resolveSegList (m : ImportMap) (hm : goodMap m = true) :
    ∀ ss : List (String × List Ty), formatSegList m ss = formatSegList [] (resolveSegList m ss)
  | [] => rfl
  | (n, args) :: ss => by
    rw [formatSegList, resolveSegList, formatSegList,
      formatGenericArgs_resolveTyList m hm args, formatSegList_resolveSegList m hm ss]

theorem formatGenericArgs_resolveTyList (m : ImportMap) (hm : goodMap m = true) :
    ∀ args : List Ty, formatGenericArgs m args = formatGenericArgs [] (resolveTyList m args)
  | [] => rfl
  | a :: rest => by
    rw [formatGenericArgs, resolveTyList, formatGenericArgs,
      resolveSynType_resolveTy m hm a, resolveSynList_resolveTyList m hm rest]

end

/-- C6 (amended): resolving a type expression none of whose consulted path
heads is an import short name returns it unchanged (both structurally and as
the rendered string), and re-resolving the output of a resolution leaves it
unchanged provided every import path is nonempty and starts with a segment
that is not itself an import short name. Without that proviso double
resolution can change the result (see the counterexample). -/
theorem c6_resolution_idempotence (m : ImportMap) (t : Ty) :
    (usesNoImport m t = true → resolveTy m t = t ∧ resolveSynType m t = tyToString t)
    ∧ (goodMap m = true →
        resolveTy m (resolveTy m t) = resolveTy m t ∧
        resolveSynType m (resolveTy m t) = tyToString (resolveTy m t)) := by
  refine ⟨fun h => ⟨resolveTy_of_usesNoImport m t h, resolveSynType_of_usesNoImport m t h⟩,
    fun hm => ⟨resolveTy_idem m hm t, ?_⟩⟩
  rw [tyToString, resolveSynType_resolveTy m hm (resolveTy m t), resolveTy_idem m hm t]

/-- Witness for C6 at a concrete import map and concrete types. -/
theorem c6_resolution_idempotence_witness :
    resolveTy [("Deposit", ["evm_core", "standard_bridge", "Deposit"])]
        (Ty.path [("u64", [])]) = Ty.path [("u64", [])] ∧
    resolveTy [("Deposit", ["evm_core", "standard_bridge", "Deposit"])]
        (resolveTy [("Deposit", ["evm_core", "standard_bridge", "Deposit"])]
          (Ty.path [("Deposit", [])])) =
      resolveTy [("Deposit", ["evm_core", "standard_bridge", "Deposit"])]
        (Ty.path [("Deposit", [])]) :=
  ⟨((c6_resolution_idempotence
      [("Deposit", ["evm_core", "standard_bridge", "Deposit"])]
      (Ty.path [("u64", [])])).1 (by decide)).1,
    ((c6_resolution_idempotence
      [("Deposit", ["evm_core", "standard_bridge", "Deposit"])]
      (Ty.path [("Deposit", [])])).2 (by decide)).1⟩

/-- C6 counterexample: for the import map sending A to B::A and B to C::B,
resolving the type A yields B::A, but resolving the resolved type again
yields C::B::A, so resolve(resolve(t)) differs from resolve(t); the claim
as stated (for every import map) is false. -/
theorem c6_counterexample_double_resolution :
    resolveSynType [("A", ["B", "A"]), ("B", ["C", "B"])] (Ty.path [("A", [])]) = "B::A" ∧
    tyToString (resolveTy [("A", ["B", "A"]), ("B", ["C", "B"])] (Ty.path [("A", [])]))
      = "B::A" ∧
    resolveSynType [("A", ["B", "A"]), ("B", ["C", "B"])]
        (resolveTy [("A", ["B", "A"]), ("B", ["C", "B"])] (Ty.path [("A", [])]))
      = "C::B::A" ∧
    ("C::B::A" : String) ≠ "B::A" :=
  ⟨rfl, rfl, rfl, by decide⟩

/-- Model of `ParameterInfo` from the macro crate: parameter name, its (pointee)
type, and flags recording whether the declared parameter was a reference. -/
structure ParameterInfo where
  name : String
  ty : Ty
  is_ref : Bool
  is_mut_ref : Bool

/-- One typed argument as processed by `extract::parameters`: a reference
parameter stores the pointee type and sets the flags, any other type is
stored as-is. -/
def paramOf (name : String) (ty : Ty) : ParameterInfo :=
  match ty with
  | .ref mu inner => ⟨name, inner, true, mu⟩
  | t => ⟨name, t, false, false⟩

/-- Model of `extract::input_type` from `extract.rs`: `()` for no parameters, the
sole parameter's type for one, an ordered tuple of the parameter types for
two or more. -/
def input_type (params : List ParameterInfo) : Ty :=
  match params with
  | [] => .tuple []
  | [p] => p.ty
  | ps => .tuple (ps.map ParameterInfo.ty)

/-- C4: input-type collapsing. A function with 0 parameters has input type
`()`; with 1, input type equals that parameter's (pointee) type; with more,
input type is the ordered tuple of the parameter types (and a reference
parameter's stored type is its pointee). -/
theorem c4_input_type_collapsing (params : List ParameterInfo) :
    (params.length = 0 → input_type params = Ty.tuple [])
    ∧ (∀ p, params = [p] → input_type params = p.ty)
    ∧ (2 ≤ params.length → input_type params = Ty.tuple (params.map ParameterInfo.ty))
    ∧ (∀ (n : String) (mu : Bool) (t : Ty), (paramOf n (Ty.ref mu t)).ty = t) := by
  refine ⟨?_, ?_, ?_, fun n mu t => rfl⟩
  · intro h
    cases params with
    | nil => rfl
    | cons p ps => simp at h
  · intro p h
    subst h
    rfl
  · intro h
    match params with
    | p :: q :: ps => rfl

/-- Witness for C4 at concrete parameter lists. -/
theorem c4_input_type_collapsing_witness :
    input_type [] = Ty.tuple [] ∧
    input_type [⟨"value", Ty.path [("SetU64", [])], false, false⟩]
      = Ty.path [("SetU64", [])] ∧
    input_type [⟨"to", Ty.path [("Address", [])], false, false⟩,
        ⟨"amount", Ty.path [("u64", [])], false, false⟩]
      = Ty.tuple [Ty.path [("Address", [])], Ty.path [("u64", [])]] :=
  ⟨(c4_input_type_collapsing []).1 rfl,
    (c4_input_type_collapsing _).2.1 ⟨"value", Ty.path [("SetU64", [])], false, false⟩ rfl,
    (c4_input_type_collapsing _).2.2.1 (by decide)⟩

/-- Model of `EventInfo` from the macro crate: the topic string and the event data
type inferred from the emit call's second argument. -/
structure EventInfo where
  topic : String
  data_type : Ty

/-- The seen-set loop of `emit_calls` in `extract.rs`: `HashSet::insert`
returns false for an already-seen topic, so such events are filtered out
and only the first occurrence of each topic is kept. -/
def dedupGo (seen : List String) : List EventInfo → List EventInfo
  | [] => []
  | e :: es => if e.topic ∈ seen then dedupGo seen es else e :: dedupGo (e.topic :: seen) es

/-- Topic deduplication of `emit_calls`: starts with an empty seen set. -/
def dedupByTopic (events : List EventInfo) : List EventInfo := dedupGo [] events

theorem dedupGo_sublist : ∀ (seen : List String) (evs : List EventInfo),
    List.Sublist (dedupGo seen evs) evs
  | _, [] => List.Sublist.refl []
  | seen, e :: es => by
    rw [dedupGo]
    by_cases h : e.topic ∈ seen
    · rw [if_pos h]
      exact (dedupGo_sublist seen es).cons e
    · rw [if_neg h]
      exact (dedupGo_sublist (e.topic :: seen) es).cons₂ e

theorem dedupGo_nodup : ∀ (seen : List String) (evs : List EventInfo),
    ((dedupGo seen evs).map EventInfo.topic).Nodup
      ∧ ∀ e ∈ dedupGo seen evs, e.topic ∉ seen
  | _, [] => ⟨List.nodup_nil, by simp [dedupGo]⟩
  | seen, e :: es => by
    rw [dedupGo]
    by_cases h : e.topic ∈ seen
    · rw [if_pos h]
      exact dedupGo_nodup seen es
    · rw [if_neg h]
      obtain ⟨h1, h2⟩ := dedupGo_nodup (e.topic :: seen) es
      refine ⟨?_, ?_⟩
      · rw [List.map_cons, List.nodup_cons]
        refine ⟨fun hmem => ?_, h1⟩
        obtain ⟨e2, he2, het⟩ := List.mem_map.mp hmem
        exact (h2 e2 he2) (het ▸ List.mem_cons_self _ _)
      · intro e2 he2
        rcases List.mem_cons.mp he2 with rfl | he2
        · exact h
        · exact fun hc => (h2 e2 he2) (List.mem_cons_of_mem _ hc)

theorem dedupGo_filter : ∀ (seen : List String) (evs : List EventInfo) (t : String),
    (dedupGo seen evs).filter (fun e => e.topic == t)
      = if t ∈ seen then [] else (evs.find? fun e => e.topic == t).toList
  | seen, [], t => by
    simp [dedupGo]
  | seen, e :: es, t => by
    rw [dedupGo]
    by_cases hs : e.topic ∈ seen
    · rw [if_pos hs, dedupGo_filter seen es t]
      by_cases ht : t ∈ seen
      · rw [if_pos ht, if_pos ht]
      · have hne : (e.topic == t) = false := by
          refine beq_false_of_ne fun hh => ht (hh ▸ hs)
        rw [if_neg ht, if_neg ht, List.find?_cons]
        simp only [hne]
    · rw [if_neg hs]
      by_cases het : (e.topic == t) = true
      · have htop : e.topic = t := eq_of_beq het
        rw [List.filter_cons]
        simp only [het, if_true]
        rw [dedupGo_filter (e.topic :: seen) es t,
          if_pos (show t ∈ e.topic :: seen from htop ▸ List.mem_cons_self _ _),
          if_neg (show t ∉ seen from htop ▸ hs), List.find?_cons]
        simp only [het]
        rfl
      · have het' : (e.topic == t) = false := by
          cases hx : e.topic == t
          · rfl
          · exact absurd hx het
        rw [List.filter_cons]
        simp only [het', Bool.false_eq_true, if_false]
        rw [dedupGo_filter (e.topic :: seen) es t, List.find?_cons]
        simp only [het']
        have hmem : (t ∈ e.topic :: seen) ↔ t ∈ seen := by
          constructor
          · intro hx
            rcases List.mem_cons.mp hx with rfl | hx
            · exact absurd rfl (ne_of_beq_false het')
            · exact hx
          · exact List.mem_cons_of_mem _
        simp only [hmem]

/-- C3: the event list extracted from emit sites contains exactly one entry
per distinct topic, that entry is the first occurrence of the topic in visit
order, and the relative order of distinct topics is preserved (the result is
a sublist of the input). -/
theorem c3_event_dedup (events : List EventInfo) :
    List.Sublist (dedupByTopic events) events
    ∧ ((dedupByTopic events).map EventInfo.topic).Nodup
    ∧ ∀ t, (dedupByTopic events).filter (fun e => e.topic == t)
        = (events.find? fun e => e.topic == t).toList := by
  refine ⟨dedupGo_sublist [] events, (dedupGo_nodup [] events).1, fun t => ?_⟩
  rw [dedupByTopic, dedupGo_filter [] events t, if_neg (List.not_mem_nil t)]

/-- Model of `FunctionInfo` from the macro crate (the fields the generators consume). -/
structure FunctionInfo where
  name : String
  doc : Option String
  params : List ParameterInfo
  input_type : Ty
  output_type : Ty
  is_custom : Bool

/-- Model of `DataDriverRole` from the macro crate. -/
inductive DataDriverRole where
  | encodeInput
  | decodeInput
  | decodeOutput
  deriving DecidableEq

/-- Model of `CustomDataDriverHandler`: the target function name, the role, and the
identifier of the hand-written handler function (`handler.func.sig.ident`). -/
structure CustomDataDriverHandler where
  fn_name : String
  role : DataDriverRole
  handlerName : String

/-- Model of `TypeMap` from `resolve.rs`: textual type rendering to fully qualified
text. -/
def TypeMap : Type := List (String × String)

/-- Model of `build_import_map` from `resolve.rs`. -/
structure ImportInfo where
  name : String
  path : List String

/-- Model of `build_import_map`: short name or alias to full path. -/
def build_import_map (imports : List ImportInfo) : ImportMap :=
  imports.map fun i => (i.name, i.path)

/-- Model of `get_resolved_type` from `data_driver.rs`: look the rendered type up in
the type map and fall back to the original rendering when absent (the
source's additional fallback for a resolved string that fails to re-parse
as a type cannot arise here, since map values are renderings of types). -/
def get_resolved_type (tm : TypeMap) (ty : Ty) : String :=
  match List.lookup (tyToString ty) tm with
  | some resolved => resolved
  | none => tyToString ty

/-- The right-hand side of one generated codec-table match arm. -/
inductive Rule where
  | customRequired (fnName : String)
  | jsonToRkyv (ty : String)
  | rkyvToJson (ty : String)
  | jsonNull
  | rkyvToJsonU64
  | customHandler (handlerName : String)
  | unsupported (kind name : String)
  deriving DecidableEq

/-- The per-function arm body of `generate_encode_input_arms`: a custom
function gets the "custom handler required" failure, any other function the
generic `json_to_rkyv` conversion at its resolved input type. -/
def encode_input_rule (tm : TypeMap) (f : FunctionInfo) : Rule :=
  if f.is_custom then Rule.customRequired f.name
  else Rule.jsonToRkyv (get_resolved_type tm f.input_type)

/-- The per-function arm body of `generate_decode_input_arms`. -/
def decode_input_rule (tm : TypeMap) (f : FunctionInfo) : Rule :=
  if f.is_custom then Rule.customRequired f.name
  else Rule.rkyvToJson (get_resolved_type tm f.input_type)

/-- The per-function arm body of `generate_decode_output_arms`: custom
functions fail, unit output returns the null value directly, `u64` output
uses the dedicated `rkyv_to_json_u64` path, anything else the generic
decoder at the resolved output type (the string comparisons are against the
unresolved rendering `output_str`, as in the source). -/
def decode_output_rule (tm : TypeMap) (f : FunctionInfo) : Rule :=
  if f.is_custom then Rule.customRequired f.name
  else if tyToString f.output_type = "()" then Rule.jsonNull
  else if tyToString f.output_type = "u64" then Rule.rkyvToJsonU64
  else Rule.rkyvToJson (get_resolved_type tm f.output_type)

/-- The handler arms appended after the function arms for one role. -/
def handler_arms (role : DataDriverRole) (handlers : List CustomDataDriverHandler) :
    List (String × Rule) :=
  (handlers.filter fun h => h.role == role).map fun h =>
    (h.fn_name, Rule.customHandler h.handlerName)

/-- Model of `generate_encode_input_arms` from `data_driver.rs`: one arm per function
in declaration order, then the registered encode-input handler arms appended. -/
def generate_encode_input_arms (functions : List FunctionInfo) (tm : TypeMap)
    (handlers : List CustomDataDriverHandler) : List (String × Rule) :=
  (functions.map fun f => (f.name, encode_input_rule tm f))
    ++ handler_arms DataDriverRole.encodeInput handlers

/-- Model of `generate_decode_input_arms` from `data_driver.rs`. -/
def generate_decode_input_arms (functions : List FunctionInfo) (tm : TypeMap)
    (handlers : List CustomDataDriverHandler) : List (String × Rule) :=
  (functions.map fun f => (f.name, decode_input_rule tm f))
    ++ handler_arms DataDriverRole.decodeInput handlers

/-- Model of `generate_decode_output_arms` from `data_driver.rs`. -/
def generate_decode_output_arms (functions : List FunctionInfo) (tm : TypeMap)
    (handlers : List CustomDataDriverHandler) : List (String × Rule) :=
  (functions.map fun f => (f.name, decode_output_rule tm f))
    ++ handler_arms DataDriverRole.decodeOutput handlers

/-- Evaluate the generated `match fn_name { ... }`: Rust tries string-literal
arms top to bottom and the first matching arm wins; the final binder arm
yields the "unsupported" failure naming the lookup kind and the name. -/
def matchLookup (arms : List (String × Rule)) (kind : String) (name : String) : Rule :=
  match arms.find? fun a => a.1 == name with
  | some a => a.2
  | none => Rule.unsupported kind name

theorem find?_map_key_eq_some {α β : Type} (key : α → String) (val : α → β)
    (l : List α) (x : α) (hx : x ∈ l)
    (huniq : ∀ y ∈ l, key y = key x → y = x) :
    (l.map fun a => (key a, val a)).find? (fun a => a.1 == key x)
      = some (key x, val x) := by
  induction l with
  | nil => cases hx
  | cons a l ih =>
    rw [List.map_cons, List.find?_cons]
    by_cases hk : (key a == key x) = true
    · have ha : a = x := huniq a (List.mem_cons_self _ _) (eq_of_beq hk)
      subst ha
      simp [hk]
    · have hk' : (key a == key x) = false := by
        cases hx2 : key a == key x
        · rfl
        · exact absurd hx2 hk
      simp only [hk']
      rcases List.mem_cons.mp hx with rfl | hx
      · exact absurd rfl (ne_of_beq_false hk')
      · exact ih hx fun y hy => huniq y (List.mem_cons_of_mem _ hy)

theorem find?_map_key_eq_none {α β : Type} (key : α → String) (val : α → β)
    (l : List α) (n : String) (h : ∀ y ∈ l, key y ≠ n) :
    (l.map fun a => (key a, val a)).find? (fun a => a.1 == n) = none := by
  induction l with
  | nil => rfl
  | cons a l ih =>
    rw [List.map_cons, List.find?_cons]
    have : (key a == n) = false := beq_false_of_ne (h a (List.mem_cons_self _ _))
    simp only [this]
    exact ih fun y hy => h y (List.mem_cons_of_mem _ hy)

theorem matchLookup_function_arm (rf : FunctionInfo → Rule) (tail : List (String × Rule))
    (kind : String) (functions : List FunctionInfo) (f : FunctionInfo)
    (hf : f ∈ functions) (hnodup : (functions.map FunctionInfo.name).Nodup) :
    matchLookup ((functions.map fun g => (g.name, rf g)) ++ tail) kind f.name = rf f := by
  have huniq : ∀ g ∈ functions, g.name = f.name → g = f := fun g hg hn =>
    List.inj_on_of_nodup_map hnodup hg hf hn
  rw [matchLookup, List.find?_append,
    find?_map_key_eq_some FunctionInfo.name rf functions f hf huniq]
  rfl

theorem matchLookup_handler_arm (rf : FunctionInfo → Rule) (role : DataDriverRole)
    (kind : String) (functions : List FunctionInfo)
    (handlers : List CustomDataDriverHandler) (h : CustomDataDriverHandler)
    (hh : h ∈ handlers) (hrole : h.role = role)
    (hnofn : ∀ g ∈ functions, g.name ≠ h.fn_name)
    (huniq : ∀ h2 ∈ handlers, h2.role = role → h2.fn_name = h.fn_name → h2 = h) :
    matchLookup ((functions.map fun g => (g.name, rf g)) ++ handler_arms role handlers)
      kind h.fn_name = Rule.customHandler h.handlerName := by
  have hmem : h ∈ handlers.filter fun h2 => h2.role == role :=
    List.mem_filter.mpr ⟨hh, by simp [hrole]⟩
  have huniq2 : ∀ h2 ∈ handlers.filter fun h2 => h2.role == role,
      h2.fn_name = h.fn_name → h2 = h := by
    intro h2 hh2 hn
    obtain ⟨hh2m, hh2r⟩ := List.mem_filter.mp hh2
    exact huniq h2 hh2m (by simpa using hh2r) hn
  rw [matchLookup, List.find?_append,
    find?_map_key_eq_none FunctionInfo.name rf functions h.fn_name hnofn,
    Option.none_or, handler_arms,
    find?_map_key_eq_some CustomDataDriverHandler.fn_name
      (fun h2 => Rule.customHandler h2.handlerName) _ h hmem huniq2]

/-- The "unsupported" default arm: a name that matches no generated arm
produces the descriptive failure naming the lookup kind and the name. -/
theorem matchLookup_default (kind name : String) (arms : List (String × Rule))
    (h : arms.find? (fun a => a.1 == name) = none) :
    matchLookup arms kind name = Rule.unsupported kind name := by
  rw [matchLookup, h]

/-- Model of `FunctionSchema` (`schema.rs`): one schema record per function. -/
structure FunctionSchema where
  name : String
  doc : String
  input : String
  output : String
  custom : Bool
  deriving DecidableEq

/-- Model of `EventSchema` (`schema.rs`). -/
structure EventSchema where
  topic : String
  data : String
  deriving DecidableEq

/-- Model of `ImportSchema` (`schema.rs`). -/
structure ImportSchema where
  name : String
  path : String
  deriving DecidableEq

/-- Model of `ContractSchema` (`schema.rs`). -/
structure ContractSchema where
  name : String
  imports : List ImportSchema
  functions : List FunctionSchema
  events : List EventSchema

/-- Model of `generate::schema` from `generate.rs`: the schema constant. Function
entries render `f.input_type.to_string()` and `f.output_type.to_string()`
(the extracted tokens, with no use of the resolution map); event entries
render the extracted topic and `e.data_type.to_string()`. -/
def generate_schema (contractName : String) (imports : List ImportInfo)
    (functions : List FunctionInfo) (events : List EventInfo) : ContractSchema :=
  { name := contractName
    imports := imports.map fun i => ⟨i.name, joinSep "::" i.path⟩
    functions := functions.map fun f =>
      ⟨f.name, f.doc.getD "", tyToString f.input_type, tyToString f.output_type, f.is_custom⟩
    events := events.map fun e => ⟨e.topic, tyToString e.data_type⟩ }

/-- The generated codec table for one role. -/
def arms_for_role (role : DataDriverRole) (functions : List FunctionInfo) (tm : TypeMap)
    (handlers : List CustomDataDriverHandler) : List (String × Rule) :=
  match role with
  | .encodeInput => generate_encode_input_arms functions tm handlers
  | .decodeInput => generate_decode_input_arms functions tm handlers
  | .decodeOutput => generate_decode_output_arms functions tm handlers

/-- C1 (amended): a non-custom function's selected rule is the generic
conversion, a custom function's selected rule is the "custom handler
required" failure in all three role tables, and a registered custom handler
is the selected rule only for a name that does not collide with any
generated function arm (handler arms are appended after the function arms,
and the first matching arm wins; see the counterexample for the collision
case). -/
theorem c1_custom_override (functions : List FunctionInfo) (tm : TypeMap)
    (handlers : List CustomDataDriverHandler)
    (hnodup : (functions.map FunctionInfo.name).Nodup) :
    (∀ f ∈ functions, f.is_custom = false →
      matchLookup (generate_encode_input_arms functions tm handlers) "encode_input" f.name
          = Rule.jsonToRkyv (get_resolved_type tm f.input_type)
        ∧ matchLookup (generate_decode_input_arms functions tm handlers) "decode_input" f.name
          = Rule.rkyvToJson (get_resolved_type tm f.input_type))
    ∧ (∀ f ∈ functions, f.is_custom = true →
      matchLookup (generate_encode_input_arms functions tm handlers) "encode_input" f.name
          = Rule.customRequired f.name
        ∧ matchLookup (generate_decode_input_arms functions tm handlers) "decode_input" f.name
          = Rule.customRequired f.name
        ∧ matchLookup (generate_decode_output_arms functions tm handlers) "decode_output" f.name
          = Rule.customRequired f.name)
    ∧ (∀ (role : DataDriverRole) (kind : String), ∀ h ∈ handlers, h.role = role →
        (∀ g ∈ functions, g.name ≠ h.fn_name) →
        (∀ h2 ∈ handlers, h2.role = role → h2.fn_name = h.fn_name → h2 = h) →
        matchLookup (arms_for_role role functions tm handlers) kind h.fn_name
          = Rule.customHandler h.handlerName) := by
  refine ⟨fun f hf hc => ?_, fun f hf hc => ?_, fun role kind h hh hr hno huniq => ?_⟩
  · rw [generate_encode_input_arms, matchLookup_function_arm _ _ _ _ f hf hnodup,
      generate_decode_input_arms, matchLookup_function_arm _ _ _ _ f hf hnodup,
      encode_input_rule, decode_input_rule, hc]
    exact ⟨rfl, rfl⟩
  · rw [generate_encode_input_arms, matchLookup_function_arm _ _ _ _ f hf hnodup,
      generate_decode_input_arms, matchLookup_function_arm _ _ _ _ f hf hnodup,
      generate_decode_output_arms, matchLookup_function_arm _ _ _ _ f hf hnodup,
      encode_input_rule, decode_input_rule, decode_output_rule, hc]
    exact ⟨rfl, rfl, rfl⟩
  · cases role with
    | encodeInput =>
      rw [arms_for_role, generate_encode_input_arms]
      exact matchLookup_handler_arm _ _ _ _ _ h hh hr hno huniq
    | decodeInput =>
      rw [arms_for_role, generate_decode_input_arms]
      exact matchLookup_handler_arm _ _ _ _ _ h hh hr hno huniq
    | decodeOutput =>
      rw [arms_for_role, generate_decode_output_arms]
      exact matchLookup_handler_arm _ _ _ _ _ h hh hr hno huniq

/-- Witness for C1 at a concrete function list and handler list. -/
theorem c1_custom_override_witness :
    matchLookup
        (generate_encode_input_arms
          [⟨"get_value", none, [], Ty.tuple [], Ty.path [("u64", [])], false⟩,
            ⟨"take_raw", none, [], Ty.tuple [], Ty.tuple [], true⟩] []
          [⟨"extra_data", DataDriverRole.encodeInput, "encode_extra_data"⟩])
        "encode_input" "get_value" = Rule.jsonToRkyv "()" ∧
    matchLookup
        (generate_encode_input_arms
          [⟨"get_value", none, [], Ty.tuple [], Ty.path [("u64", [])], false⟩,
            ⟨"take_raw", none, [], Ty.tuple [], Ty.tuple [], true⟩] []
          [⟨"extra_data", DataDriverRole.encodeInput, "encode_extra_data"⟩])
        "encode_input" "take_raw" = Rule.customRequired "take_raw" ∧
    matchLookup
        (generate_encode_input_arms
          [⟨"get_value", none, [], Ty.tuple [], Ty.path [("u64", [])], false⟩,
            ⟨"take_raw", none, [], Ty.tuple [], Ty.tuple [], true⟩] []
          [⟨"extra_data", DataDriverRole.encodeInput, "encode_extra_data"⟩])
        "encode_input" "extra_data" = Rule.customHandler "encode_extra_data" := by
  have hnodup :
      (([⟨"get_value", none, [], Ty.tuple [], Ty.path [("u64", [])], false⟩,
        ⟨"take_raw", none, [], Ty.tuple [], Ty.tuple [], true⟩] :
          List FunctionInfo).map FunctionInfo.name).Nodup := by
    decide
  have hmain := c1_custom_override
    [⟨"get_value", none, [], Ty.tuple [], Ty.path [("u64", [])], false⟩,
      ⟨"take_raw", none, [], Ty.tuple [], Ty.tuple [], true⟩] []
    [⟨"extra_data", DataDriverRole.encodeInput, "encode_extra_data"⟩] hnodup
  refine ⟨(hmain.1 _ (List.mem_cons_self _ _) rfl).1, (hmain.2.1 _
    (List.mem_cons_of_mem _ (List.mem_cons_self _ _)) rfl).1, ?_⟩
  exact hmain.2.2 DataDriverRole.encodeInput "encode_input" _ (List.mem_cons_self _ _) rfl
    (by decide) (fun h2 hh2 _ _ => List.eq_of_mem_singleton hh2)

/-- C1 counterexample: a function marked custom whose name also carries a
registered encode-input custom handler. The function arms precede the
appended handler arms and Rust match semantics select the first matching
arm, so the lookup yields the "custom handler required" failure, not the
registered custom handler — refuting the claim that the custom handler is
the rule actually selected for that function and role. -/
theorem c1_counterexample_handler_shadowed :
    matchLookup
        (generate_encode_input_arms
          [⟨"take_raw", none, [], Ty.tuple [], Ty.tuple [], true⟩] []
          [⟨"take_raw", DataDriverRole.encodeInput, "encode_take_raw"⟩])
        "encode_input" "take_raw" = Rule.customRequired "take_raw" ∧
    matchLookup
        (generate_encode_input_arms
          [⟨"take_raw", none, [], Ty.tuple [], Ty.tuple [], true⟩] []
          [⟨"take_raw", DataDriverRole.encodeInput, "encode_take_raw"⟩])
        "encode_input" "take_raw" ≠ Rule.customHandler "encode_take_raw" :=
  ⟨rfl, by decide⟩

/-- C5: output-type fast paths of the decode-output table. For a non-custom
function the selected rule returns the null value directly when the declared
output type renders as `()`, uses the dedicated `rkyv_to_json_u64` path when
it renders as `u64`, and otherwise is the generic structural decoder at the
resolved output type. -/
theorem c5_decode_output_fast_paths (functions : List FunctionInfo) (tm : TypeMap)
    (handlers : List CustomDataDriverHandler)
    (hnodup : (functions.map FunctionInfo.name).Nodup) :
    ∀ f ∈ functions, f.is_custom = false →
      (tyToString f.output_type = "()" →
        matchLookup (generate_decode_output_arms functions tm handlers) "decode_output" f.name
          = Rule.jsonNull)
      ∧ (tyToString f.output_type = "u64" →
        matchLookup (generate_decode_output_arms functions tm handlers) "decode_output" f.name
          = Rule.rkyvToJsonU64)
      ∧ (tyToString f.output_type ≠ "()" → tyToString f.output_type ≠ "u64" →
        matchLookup (generate_decode_output_arms functions tm handlers) "decode_output" f.name
          = Rule.rkyvToJson (get_resolved_type tm f.output_type)) := by
  intro f hf hc
  rw [generate_decode_output_arms]
  refine ⟨fun hu => ?_, fun hu => ?_, fun hu1 hu2 => ?_⟩
  · rw [matchLookup_function_arm _ _ _ _ f hf hnodup, decode_output_rule, hc]
    simp [hu]
  · rw [matchLookup_function_arm _ _ _ _ f hf hnodup, decode_output_rule, hc]
    simp [hu]
  · rw [matchLookup_function_arm _ _ _ _ f hf hnodup, decode_output_rule, hc]
    simp only [Bool.false_eq_true, if_false]
    rw [if_neg hu1, if_neg hu2]

/-- Witness for C5 at a concrete function list covering the three paths. -/
theorem c5_decode_output_fast_paths_witness :
    matchLookup
        (generate_decode_output_arms
          [⟨"pause", none, [], Ty.tuple [], Ty.tuple [], false⟩,
            ⟨"finalization_period", none, [], Ty.tuple [], Ty.path [("u64", [])], false⟩,
            ⟨"is_paused", none, [], Ty.tuple [], Ty.path [("bool", [])], false⟩] [] [])
        "decode_output" "pause" = Rule.jsonNull ∧
    matchLookup
        (generate_decode_output_arms
          [⟨"pause", none, [], Ty.tuple [], Ty.tuple [], false⟩,
            ⟨"finalization_period", none, [], Ty.tuple [], Ty.path [("u64", [])], false⟩,
            ⟨"is_paused", none, [], Ty.tuple [], Ty.path [("bool", [])], false⟩] [] [])
        "decode_output" "finalization_period" = Rule.rkyvToJsonU64 ∧
    matchLookup
        (generate_decode_output_arms
          [⟨"pause", none, [], Ty.tuple [], Ty.tuple [], false⟩,
            ⟨"finalization_period", none, [], Ty.tuple [], Ty.path [("u64", [])], false⟩,
            ⟨"is_paused", none, [], Ty.tuple [], Ty.path [("bool", [])], false⟩] [] [])
        "decode_output" "is_paused" = Rule.rkyvToJson "bool" := by
  have hmain := c5_decode_output_fast_paths
    [⟨"pause", none, [], Ty.tuple [], Ty.tuple [], false⟩,
      ⟨"finalization_period", none, [], Ty.tuple [], Ty.path [("u64", [])], false⟩,
      ⟨"is_paused", none, [], Ty.tuple [], Ty.path [("bool", [])], false⟩] [] []
    (by decide)
  refine ⟨(hmain _ (List.mem_cons_self _ _) rfl).1 rfl,
    (hmain _ (List.mem_cons_of_mem _ (List.mem_cons_self _ _)) rfl).2.1 rfl,
    (hmain _ (List.mem_cons_of_mem _ (List.mem_cons_of_mem _ (List.mem_cons_self _ _))) rfl).2.2
      (by decide) (by decide)⟩

/-- C2 (amended): the emitted schema's textual input, output and event data
types are the extracted short textual forms rendered from the declaration
tokens (the resolution map is not consulted by the schema generator); the
resolver's fully qualified forms are used in the generated codec-table
rules instead. -/
theorem c2_schema_uses_extracted_forms (cn : String) (imports : List ImportInfo)
    (functions : List FunctionInfo) (events : List EventInfo) :
    (∀ f ∈ functions,
      FunctionSchema.mk f.name (f.doc.getD "") (tyToString f.input_type)
          (tyToString f.output_type) f.is_custom
        ∈ (generate_schema cn imports functions events).functions)
    ∧ (∀ e ∈ events,
      EventSchema.mk e.topic (tyToString e.data_type)
        ∈ (generate_schema cn imports functions events).events)
    ∧ (∀ (tm : TypeMap) (handlers : List CustomDataDriverHandler), ∀ f ∈ functions,
        (functions.map FunctionInfo.name).Nodup → f.is_custom = false →
        matchLookup (generate_decode_input_arms functions tm handlers) "decode_input" f.name
          = Rule.rkyvToJson (get_resolved_type tm f.input_type)) := by
  refine ⟨fun f hf => ?_, fun e he => ?_, fun tm handlers f hf hnodup hc => ?_⟩
  · exact List.mem_map_of_mem _ hf
  · exact List.mem_map_of_mem _ he
  · rw [generate_decode_input_arms, matchLookup_function_arm _ _ _ _ f hf hnodup,
      decode_input_rule, hc]
    rfl

/-- Witness for C2 at a concrete contract declaration. -/
theorem c2_schema_uses_extracted_forms_witness :
    FunctionSchema.mk "init" "Initializes the contract with an owner." "Address" "()" false
      ∈ (generate_schema "TestBridge" [⟨"Address", ["evm_core", "Address"]⟩]
          [⟨"init", some "Initializes the contract with an owner.",
            [⟨"owner", Ty.path [("Address", [])], false, false⟩],
            Ty.path [("Address", [])], Ty.tuple [], false⟩]
          [⟨"events::PauseToggled::PAUSED", Ty.path [("events", []), ("PauseToggled", [])]⟩]
        ).functions ∧
    EventSchema.mk "events::PauseToggled::PAUSED" "events::PauseToggled"
      ∈ (generate_schema "TestBridge" [⟨"Address", ["evm_core", "Address"]⟩]
          [⟨"init", some "Initializes the contract with an owner.",
            [⟨"owner", Ty.path [("Address", [])], false, false⟩],
            Ty.path [("Address", [])], Ty.tuple [], false⟩]
          [⟨"events::PauseToggled::PAUSED", Ty.path [("events", []), ("PauseToggled", [])]⟩]
        ).events := by
  have hmain := c2_schema_uses_extracted_forms "TestBridge"
    [⟨"Address", ["evm_core", "Address"]⟩]
    [⟨"init", some "Initializes the contract with an owner.",
      [⟨"owner", Ty.path [("Address", [])], false, false⟩],
      Ty.path [("Address", [])], Ty.tuple [], false⟩]
    [⟨"events::PauseToggled::PAUSED", Ty.path [("events", []), ("PauseToggled", [])]⟩]
  exact ⟨hmain.1 _ (List.mem_cons_self _ _), hmain.2.1 _ (List.mem_cons_self _ _)⟩

/-- C2 counterexample: for an import `use evm_core::Address` and a function
`init(owner: Address)`, the schema's function entry renders the input type
as the short imported name `Address`, while the type resolver produces
`evm_core::Address` — so a short imported type name does appear in the
schema's function entries, refuting the claim that schema types are the
resolved fully qualified forms. -/
theorem c2_counterexample_schema_short_name :
    (generate_schema "TestBridge" [⟨"Address", ["evm_core", "Address"]⟩]
        [⟨"init", none, [⟨"owner", Ty.path [("Address", [])], false, false⟩],
          Ty.path [("Address", [])], Ty.tuple [], false⟩] []).functions
      = [⟨"init", "", "Address", "()", false⟩] ∧
    resolveSynType (build_import_map [⟨"Address", ["evm_core", "Address"]⟩])
        (Ty.path [("Address", [])]) = "evm_core::Address" ∧
    List.lookup "Address" (build_import_map [⟨"Address", ["evm_core", "Address"]⟩])
      = some ["evm_core", "Address"] ∧
    ("Address" : String) ≠ "evm_core::Address" :=
  ⟨rfl, rfl, rfl, by decide⟩

/-- Receiver kind of a method signature. -/
inductive Receiver where
  | none
  | value
  | ref
  | refMut
  deriving DecidableEq

/-- The facts about a method signature consulted by `validate.rs`:
whether it has generic or const parameters, is async, uses `impl Trait` in
parameters or return type, and its receiver kind. -/
structure MethodSig where
  name : String
  hasGenerics : Bool
  isAsync : Bool
  hasImplTraitParam : Bool
  hasImplTraitReturn : Bool
  receiver : Receiver
  deriving DecidableEq

/-- Model of `validate::public_method` from `validate.rs`: the checks in source
order — generics, async, `impl Trait` in parameters, `impl Trait` in return
type, missing receiver, receiver consumed by value. -/
def validate_public_method (m : MethodSig) : Except String Unit :=
  if m.hasGenerics then
    .error ("public method `" ++ m.name ++ "` cannot have generic or const parameters")
  else if m.isAsync then
    .error ("public method `" ++ m.name ++ "` cannot be async")
  else if m.hasImplTraitParam then
    .error ("public method `" ++ m.name ++ "` cannot use `impl Trait` in parameters")
  else if m.hasImplTraitReturn then
    .error ("public method `" ++ m.name ++ "` cannot use `impl Trait` as return type")
  else
    match m.receiver with
    | Receiver.none => .error ("public method `" ++ m.name ++ "` must have a `self` receiver")
    | Receiver.value => .error ("public method `" ++ m.name ++ "` cannot consume `self`")
    | _ => .ok ()

/-- Model of `validate::trait_method` from `validate.rs`: same checks, except that a
method with no receiver is permitted when `isDefaultImpl` is true (an
empty-body method exposing the interface's default implementation). -/
def validate_trait_method (m : MethodSig) (traitName : String)
    (isDefaultImpl : Bool) : Except String Unit :=
  if m.hasGenerics then
    .error ("trait method `" ++ traitName ++ "::" ++ m.name
      ++ "` cannot have generic or const parameters")
  else if m.isAsync then
    .error ("trait method `" ++ traitName ++ "::" ++ m.name ++ "` cannot be async")
  else if m.hasImplTraitParam then
    .error ("trait method `" ++ traitName ++ "::" ++ m.name
      ++ "` cannot use `impl Trait` in parameters")
  else if m.hasImplTraitReturn then
    .error ("trait method `" ++ traitName ++ "::" ++ m.name
      ++ "` cannot use `impl Trait` as return type")
  else
    match m.receiver with
    | Receiver.value =>
      .error ("trait method `" ++ traitName ++ "::" ++ m.name ++ "` cannot consume `self`")
    | Receiver.none =>
      if isDefaultImpl then .ok ()
      else .error ("trait method `" ++ traitName ++ "::" ++ m.name
        ++ "` must have a `self` receiver")
    | _ => .ok ()

/-- C7: validation rejects every public operation with no receiver or with a
by-value receiver; a trait method with no receiver is rejected unless it is
an empty-body interface-default delegation, in which case the receiver rule
is waived (it is accepted when no other violation is present); a by-value
receiver is rejected for trait methods regardless of delegation. -/
theorem c7_receiver_validation (m : MethodSig) (traitName : String) :
    (m.receiver = Receiver.none → ∃ msg, validate_public_method m = Except.error msg)
    ∧ (m.receiver = Receiver.value → ∃ msg, validate_public_method m = Except.error msg)
    ∧ (m.receiver = Receiver.none →
        ∃ msg, validate_trait_method m traitName false = Except.error msg)
    ∧ (∀ b : Bool, m.receiver = Receiver.value →
        ∃ msg, validate_trait_method m traitName b = Except.error msg)
    ∧ (m.receiver = Receiver.none → m.hasGenerics = false → m.isAsync = false →
        m.hasImplTraitParam = false → m.hasImplTraitReturn = false →
        validate_trait_method m traitName true = Except.ok ()) := by
  obtain ⟨n, g, a, p, r, recv⟩ := m
  refine ⟨?_, ?_, ?_, ?_, ?_⟩
  · intro h
    cases h
    cases g <;> cases a <;> cases p <;> cases r <;> exact ⟨_, rfl⟩
  · intro h
    cases h
    cases g <;> cases a <;> cases p <;> cases r <;> exact ⟨_, rfl⟩
  · intro h
    cases h
    cases g <;> cases a <;> cases p <;> cases r <;> exact ⟨_, rfl⟩
  · intro b h
    cases h
    cases b <;> cases g <;> cases a <;> cases p <;> cases r <;> exact ⟨_, rfl⟩
  · intro h hg ha hp hr
    cases h
    cases hg
    cases ha
    cases hp
    cases hr
    rfl

/-- Witness for C7 at concrete method signatures. -/
theorem c7_receiver_validation_witness :
    (∃ msg, validate_public_method ⟨"create", false, false, false, false, Receiver.none⟩
      = Except.error msg)
    ∧ (∃ msg, validate_public_method ⟨"destroy", false, false, false, false, Receiver.value⟩
      = Except.error msg)
    ∧ (∃ msg, validate_trait_method ⟨"version", false, false, false, false, Receiver.none⟩
      "ISemver" false = Except.error msg)
    ∧ validate_trait_method ⟨"version", false, false, false, false, Receiver.none⟩
      "ISemver" true = Except.ok () :=
  ⟨(c7_receiver_validation ⟨"create", false, false, false, false, Receiver.none⟩ "T").1 rfl,
    (c7_receiver_validation ⟨"destroy", false, false, false, false, Receiver.value⟩ "T").2.1 rfl,
    (c7_receiver_validation ⟨"version", false, false, false, false, Receiver.none⟩
      "ISemver").2.2.1 rfl,
    (c7_receiver_validation ⟨"version", false, false, false, false, Receiver.none⟩
      "ISemver").2.2.2.2 rfl rfl rfl rfl rfl⟩

/-- Abstract outcome model of one loaded wasm module as driven by
`data_driver_wasm.rs`: each field records the observable outcome of the
corresponding host/module interaction (export lookup, call, returned status
code, length-prefixed read, UTF-8 validation), which is all the bridge's
control flow depends on. -/
structure WasmModule where
  growFails : Bool
  hasGetSchema : Bool
  getSchemaTraps : Bool
  getSchemaStatus : Int
  schemaBytesOk : Bool
  schemaUtf8 : Option String
  hasEncodeInput : Bool
  encodeTraps : Bool
  encodeStatus : Int
  encodeBytesOk : Bool
  encodeBytes : List Nat
  hasGetLastError : Bool
  lastErrorGrowFails : Bool
  lastErrorTraps : Bool
  lastErrorStatus : Int
  lastErrorBytesOk : Bool
  lastErrorUtf8 : Option String

/-- Model of `read_last_error` from `data_driver_wasm.rs`: every failure along the
way (missing `get_last_error` export, failed memory growth, trapped call,
non-zero status, bad length-prefixed bytes, invalid UTF-8) collapses to
`none` through the `?`/`.ok()?` chain; only a clean run yields the message. -/
def read_last_error (m : WasmModule) : Option String :=
  if m.hasGetLastError = false then none
  else if m.lastErrorGrowFails then none
  else if m.lastErrorTraps then none
  else if m.lastErrorStatus ≠ 0 then none
  else if m.lastErrorBytesOk = false then none
  else m.lastErrorUtf8

/-- Model of `get_schema_json` from `data_driver_wasm.rs`: grow memory, call
`get_schema`, and on a non-zero status report an error embedding the detail
retrieved by `read_last_error` (or the generic fallback). -/
def get_schema_json (m : WasmModule) : Except String String :=
  if m.growFails then .error "memory grow failed"
  else if m.hasGetSchema = false then .error "WASM export get_schema not found"
  else if m.getSchemaTraps then .error "get_schema call trapped"
  else if m.getSchemaStatus ≠ 0 then
    .error ("get_schema failed with code " ++ toString m.getSchemaStatus ++ ": "
      ++ (read_last_error m).getD "unknown error")
  else if m.schemaBytesOk = false then .error "WASM output buffer out of bounds"
  else
    match m.schemaUtf8 with
    | some s => .ok s
    | none => .error "schema output is not valid UTF-8"

/-- Model of `encode_input` from `data_driver_wasm.rs` (the status/error path; the
name and json payloads only feed the module call, whose outcome the model
records in the fields). -/
def encode_input_bridge (m : WasmModule) (fnName json : String) : Except String (List Nat) :=
  if m.growFails then .error "memory grow failed"
  else if m.hasEncodeInput = false then .error "WASM export encode_input_fn not found"
  else if m.encodeTraps then .error "encode_input_fn call trapped"
  else if m.encodeStatus ≠ 0 then
    .error ("encode_input_fn failed with code " ++ toString m.encodeStatus ++ ": "
      ++ (read_last_error m).getD "unknown error")
  else if m.encodeBytesOk = false then .error "WASM output buffer out of bounds"
  else .ok m.encodeBytes

/-- C8: whenever the module's entry point returns a non-zero status, the
bridge returns an error (never a success) whose message ends with the text
retrieved by the secondary `get_last_error` call, and that secondary
retrieval yields nothing — so the generic "unknown error" fallback is
embedded instead — exactly when the export is missing, growth fails, the
call traps, its status is non-zero, the bytes are bad, or the text is not
UTF-8. -/
theorem c8_bridge_error_reporting (m : WasmModule) (fnName json : String) :
    (m.growFails = false → m.hasGetSchema = true → m.getSchemaTraps = false →
      m.getSchemaStatus ≠ 0 →
      get_schema_json m = Except.error ("get_schema failed with code "
        ++ toString m.getSchemaStatus ++ ": " ++ (read_last_error m).getD "unknown error"))
    ∧ (m.growFails = false → m.hasEncodeInput = true → m.encodeTraps = false →
      m.encodeStatus ≠ 0 →
      encode_input_bridge m fnName json = Except.error ("encode_input_fn failed with code "
        ++ toString m.encodeStatus ++ ": " ++ (read_last_error m).getD "unknown error"))
    ∧ (m.hasGetLastError = false ∨ m.lastErrorGrowFails = true ∨ m.lastErrorTraps = true
        ∨ m.lastErrorStatus ≠ 0 ∨ m.lastErrorBytesOk = false ∨ m.lastErrorUtf8 = none →
      read_last_error m = none)
    ∧ (∀ s, read_last_error m = some s → m.lastErrorUtf8 = some s) := by
  refine ⟨fun h1 h2 h3 h4 => ?_, fun h1 h2 h3 h4 => ?_, fun h => ?_, fun s hs => ?_⟩
  · rw [get_schema_json]
    simp [h1, h2, h3, h4]
  · rw [encode_input_bridge]
    simp [h1, h2, h3, h4]
  · rw [read_last_error]
    rcases h with h | h | h | h | h | h <;> split_ifs <;> simp_all
  · rw [read_last_error] at hs
    split_ifs at hs <;> simp_all

/-- Witness for C8 at a concrete module outcome: status 7 from `get_schema`
and a missing `get_last_error` export, so the generic fallback is embedded. -/
theorem c8_bridge_error_reporting_witness :
    get_schema_json
        ⟨false, true, false, 7, true, some "schemajson", true, false, 0, true, [],
          false, false, false, 0, true, some "detail"⟩
      = Except.error "get_schema failed with code 7: unknown error" ∧
    read_last_error
        ⟨false, true, false, 7, true, some "schemajson", true, false, 0, true, [],
          false, false, false, 0, true, some "detail"⟩
      = none := by
  have hmain := c8_bridge_error_reporting
    ⟨false, true, false, 7, true, some "schemajson", true, false, 0, true, [],
      false, false, false, 0, true, some "detail"⟩ "" ""
  have hnone := hmain.2.2.1 (Or.inl rfl)
  refine ⟨?_, hnone⟩
  have h1 := hmain.1 rfl rfl rfl (by decide)
  rw [hnone] at h1
  exact h1

/-- Model of `ensure_memory_capacity` from `data_driver_wasm.rs`: the required page
count is `(required_bytes + 65535) / 65536`; when the current page count is
short, the memory is grown once by the difference, otherwise nothing
happens. The result pairs the new page count with the list of grow deltas
issued. -/
def ensure_memory_capacity (currentPages : Nat) (requiredBytes : Nat) : Nat × List Nat :=
  if currentPages < (requiredBytes + 65535) / 65536 then
    ((requiredBytes + 65535) / 65536, [(requiredBytes + 65535) / 65536 - currentPages])
  else (currentPages, [])

/-- C9: ensuring capacity computes the minimal page count covering the
request (the ceiling of bytes over the 64 KiB page size), is a no-op when
already satisfied, otherwise issues exactly one grow call by the minimal
page delta; memory never shrinks and the operation is idempotent. -/
theorem c9_ensure_memory_capacity (c n : Nat) :
    (n ≤ ((n + 65535) / 65536) * 65536
      ∧ ∀ p : Nat, n ≤ p * 65536 → (n + 65535) / 65536 ≤ p)
    ∧ ((n + 65535) / 65536 ≤ c → ensure_memory_capacity c n = (c, []))
    ∧ (c < (n + 65535) / 65536 →
        ensure_memory_capacity c n = ((n + 65535) / 65536, [(n + 65535) / 65536 - c]))
    ∧ c ≤ (ensure_memory_capacity c n).1
    ∧ ensure_memory_capacity (ensure_memory_capacity c n).1 n
        = ((ensure_memory_capacity c n).1, []) := by
  have hnoop : ∀ cc, (n + 65535) / 65536 ≤ cc → ensure_memory_capacity cc n = (cc, []) :=
    fun cc h => by rw [ensure_memory_capacity, if_neg (by omega)]
  have hgrow : ∀ cc, cc < (n + 65535) / 65536 →
      ensure_memory_capacity cc n
        = ((n + 65535) / 65536, [(n + 65535) / 65536 - cc]) :=
    fun cc h => by rw [ensure_memory_capacity, if_pos h]
  refine ⟨⟨by omega, fun p hp => by omega⟩, hnoop c, hgrow c, ?_, ?_⟩
  · by_cases h : c < (n + 65535) / 65536
    · rw [hgrow c h]
      exact Nat.le_of_lt h
    · rw [hnoop c (by omega)]
  · by_cases h : c < (n + 65535) / 65536
    · rw [hgrow c h]
      exact hnoop _ (Nat.le_refl _)
    · rw [hnoop c (by omega)]
      exact hnoop c (by omega)

/-- Witness for C9 at concrete page counts and byte sizes: 200000 bytes need
4 pages; from 1 page one grow by 3 pages happens, from 5 pages nothing. -/
theorem c9_ensure_memory_capacity_witness :
    ensure_memory_capacity 5 200000 = (5, []) ∧
    ensure_memory_capacity 1 200000 = (4, [3]) ∧
    200000 ≤ ((200000 + 65535) / 65536) * 65536 :=
  ⟨(c9_ensure_memory_capacity 5 200000).2.1 (by decide),
    (c9_ensure_memory_capacity 1 200000).2.2.1 (by decide),
    (c9_ensure_memory_capacity 1 200000).1.1⟩

/-- The shapes of emit-call argument expressions distinguished by
`topic_from_expr` and `type_from_expr` in `extract.rs` / `lib.rs`: a string
literal, a path expression, a struct literal, a call (with the callee path
when the callee is a path), or anything else. -/
inductive RExpr where
  | lit (s : String)
  | pathE (segs : List String)
  | structE (segs : List String)
  | callE (funcPath : Option (List String))
  | otherE

/-- Model of `topic_from_expr`: a string literal yields its value, a path expression
yields its segments joined with `::`, anything else yields nothing. -/
def topic_from_expr : RExpr → Option String
  | .lit s => some s
  | .pathE segs => some (joinSep "::" segs)
  | _ => none

/-- Model of `type_from_expr`: struct literals, path-called constructors and path
expressions yield their path as the data type; anything else falls back to
the unit type. -/
def type_from_expr : RExpr → Ty
  | .structE segs => Ty.path (segs.map fun n => (n, []))
  | .callE (some segs) => Ty.path (segs.map fun n => (n, []))
  | .callE none => Ty.tuple []
  | .pathE segs => Ty.path (segs.map fun n => (n, []))
  | _ => Ty.tuple []

/-- One call expression as inspected by `EmitVisitor::visit_expr_call`:
the callee's path segments and the argument expressions. -/
structure EmitCall where
  funcSegs : List String
  args : List RExpr

/-- The visitor body for one call: an event is recorded only when the callee
is `abi::emit` or `emit`, there are at least two arguments, and the first
argument yields a topic; in every other case nothing is recorded and no
error is raised (the visitor's only output is the event list). -/
def event_from_call (c : EmitCall) : Option EventInfo :=
  if c.funcSegs = ["abi", "emit"] ∨ c.funcSegs = ["emit"] then
    match c.args with
    | a0 :: a1 :: _ =>
      match topic_from_expr a0 with
      | some t => some ⟨t, type_from_expr a1⟩
      | none => none
    | _ => none
  else none

/-- The visitor's accumulated event list over the calls in visit order. -/
def events_from_calls (calls : List EmitCall) : List EventInfo :=
  calls.filterMap event_from_call

/-- Identifier characters after the first. -/
def isIdentChar (c : Char) : Bool := c.isAlphanum || c = '_'

/-- A plausible Rust identifier (approximating what `syn` accepts as one
path segment). -/
def isIdentStr (s : String) : Bool :=
  match s.toList with
  | [] => false
  | c :: cs => (c.isAlpha || c = '_') && cs.all isIdentChar

/-- Approximation of `syn::parse_str::<syn::Path>` on a topic string: it
succeeds exactly when every `::`-separated segment is an identifier. -/
def parse_path_string (s : String) : Option (List String) :=
  if (s.splitOn "::").all isIdentStr then some (s.splitOn "::") else none

/-- The "single lowercase identifier is probably a variable" skip heuristic
of `generate_decode_event_arms`. -/
def is_lowercase_var (segs : List String) : Bool :=
  match segs with
  | [n] =>
    match n.toList with
    | c :: _ => c.isLower
    | [] => false
  | _ => false

/-- Model of `generate_decode_event_arms` from `data_driver.rs`: one decode rule per
event, keyed by the resolved topic; single lowercase identifier topics are
skipped. -/
def generate_decode_event_arms (events : List EventInfo) (tm : TypeMap) :
    List (String × Rule) :=
  events.filterMap fun e =>
    match parse_path_string ((List.lookup e.topic tm).getD e.topic) with
    | some segs =>
      if is_lowercase_var segs then none
      else some ((List.lookup e.topic tm).getD e.topic,
        Rule.rkyvToJson (get_resolved_type tm e.data_type))
    | none => some ((List.lookup e.topic tm).getD e.topic,
      Rule.rkyvToJson (get_resolved_type tm e.data_type))

/-- C10: an emit call with fewer than two arguments, or whose first (topic)
argument is neither a string literal nor a path expression, contributes no
event descriptor at all: the extracted event list is the same as if the call
were absent, and consequently the schema's event list and the decode-event
codec table contain no entry for it; extraction is total, so no error is
reported. -/
theorem c10_malformed_emit_dropped (pre post : List EmitCall) (c : EmitCall)
    (h : c.args.length < 2
      ∨ ∀ a rest, c.args = a :: rest → topic_from_expr a = none) :
    events_from_calls (pre ++ c :: post) = events_from_calls (pre ++ post)
    ∧ (∀ (cn : String) (imports : List ImportInfo) (functions : List FunctionInfo),
      (generate_schema cn imports functions
          (dedupByTopic (events_from_calls (pre ++ c :: post)))).events
        = (generate_schema cn imports functions
            (dedupByTopic (events_from_calls (pre ++ post)))).events)
    ∧ (∀ tm : TypeMap,
      generate_decode_event_arms (dedupByTopic (events_from_calls (pre ++ c :: post))) tm
        = generate_decode_event_arms (dedupByTopic (events_from_calls (pre ++ post))) tm) := by
  have hnone : event_from_call c = none := by
    rw [event_from_call]
    split
    · match hargs : c.args with
      | [] => rfl
      | [a] => rfl
      | a :: b :: rest =>
        rcases h with h | h
        · rw [hargs] at h
          simp at h
          omega
        · have ht := h a (b :: rest) hargs
          simp [ht]
    · rfl
  have hlist : events_from_calls (pre ++ c :: post) = events_from_calls (pre ++ post) := by
    rw [events_from_calls, events_from_calls, List.filterMap_append, List.filterMap_append,
      List.filterMap_cons, hnone]
  exact ⟨hlist, fun cn imports functions => by rw [hlist], fun tm => by rw [hlist]⟩

/-- Witness for C10: an emit call whose topic is a computed expression (not
a literal or path) is silently dropped; a well-formed sibling call survives. -/
theorem c10_malformed_emit_dropped_witness :
    events_from_calls
        [⟨["abi", "emit"], [RExpr.lit "count_changed", RExpr.pathE ["CountChanged"]]⟩,
          ⟨["abi", "emit"], [RExpr.otherE, RExpr.pathE ["CountChanged"]]⟩]
      = [⟨"count_changed", Ty.path [("CountChanged", [])]⟩] ∧
    events_from_calls [⟨["abi", "emit"], [RExpr.lit "lonely"]⟩] = [] := by
  constructor
  · have hmain := c10_malformed_emit_dropped
      [⟨["abi", "emit"], [RExpr.lit "count_changed", RExpr.pathE ["CountChanged"]]⟩] []
      ⟨["abi", "emit"], [RExpr.otherE, RExpr.pathE ["CountChanged"]]⟩
      (Or.inr fun a rest heq => by cases heq; rfl)
    have h2 : events_from_calls
          [⟨["abi", "emit"], [RExpr.lit "count_changed", RExpr.pathE ["CountChanged"]]⟩,
            ⟨["abi", "emit"], [RExpr.otherE, RExpr.pathE ["CountChanged"]]⟩]
        = events_from_calls
          [⟨["abi", "emit"], [RExpr.lit "count_changed", RExpr.pathE ["CountChanged"]]⟩] :=
      hmain.1
    rw [h2]
    rfl
  · have hmain := c10_malformed_emit_dropped [] []
      ⟨["abi", "emit"], [RExpr.lit "lonely"]⟩ (Or.inl (by decide))
    have h2 : events_from_calls [⟨["abi", "emit"], [RExpr.lit "lonely"]⟩]
        = events_from_calls [] := hmain.1
    rw [h2]
    rfl

end Forge
